import Mathlib

/-!
Verification development for the SM-Vault client-side cryptographic core
(`frontend/src/lib/crypto.ts`).

Modelling conventions:

* Byte streams are `List Nat` with every entry `< 256` where it matters.
* `btoa`/`atob` (the Web platform primitives used by `arrayBufferToBase64`
  and `base64ToArrayBuffer`) are modelled as an executable standard base64
  codec, including forgiving handling of the final group and rejection of
  characters outside the alphabet and of misplaced padding.
* The Web Crypto AES-GCM primitive together with the `TextEncoder` UTF-8
  step is modelled as an ideal authenticated cipher over strings: the
  ciphertext is an injectively encoded byte stream carrying the key
  material and nonce, and decryption succeeds exactly when the key
  (master password and salt) and iv match, returning the exact plaintext.
  PBKDF2 is modelled as the pair (password, salt), i.e. an injective,
  deterministic derivation, which is the ideal-functionality reading of
  the source's `deriveKey`.
* `JSON.stringify` at the two call sites is modelled by printers that
  produce exactly the text the source produces (the export container is
  printed compactly; the source passes an indent of 2, which only inserts
  whitespace that the parser skips).  `JSON.parse` is modelled by an
  executable recursive-descent parser over a `Json` value type.  Model
  restrictions (documented where relevant): numbers are integers,
  duplicate object keys are kept as parsed, and lone-surrogate `\u`
  escapes are rejected; none of these affect the texts the claims are
  about.
-/

namespace SMVault

/-- Plaintext vault record, mirroring the `VaultItem` interface of the source. -/
structure VaultItem where
  title : String
  username : String
  password : String
  url : String
  notes : String
deriving DecidableEq

/-- Encrypted blob, mirroring the `EncryptedData` interface: each field is a
base64-encoded string. -/
structure EncryptedData where
  encrypted : String
  salt : String
  iv : String
deriving DecidableEq

/-- Password generation policy, mirroring the `PasswordOptions` interface. -/
structure PasswordOptions where
  length : Nat
  includeNumbers : Bool
  includeSymbols : Bool
  excludeAmbiguous : Bool
deriving DecidableEq

/-! ## Encoding layer: base64 (`arrayBufferToBase64` / `base64ToArrayBuffer`) -/

/-- The standard base64 alphabet, as used by `btoa`/`atob`. -/
def base64Alphabet : List Char :=
  "ABCDEFGHIJKLMNOPQRSTUVWXYZabcdefghijklmnopqrstuvwxyz0123456789+/".data

/-- Character for a 6-bit group (the index is always `< 64` at use sites). -/
def b64Char (n : Nat) : Char := base64Alphabet.getD n 'A'

/-- Value of a base64 character: its index in the alphabet, or failure for a
character outside the alphabet (including `'='`). -/
def b64Val (c : Char) : Option Nat :=
  let i := base64Alphabet.indexOf c
  if i < 64 then some i else none

/-- Base64-encode a byte stream, three bytes to four characters, padding the
final group with `'='` as `btoa` does. -/
def base64EncodeChars : List Nat → List Char
  | [] => []
  | [a] => [b64Char (a / 4), b64Char (a % 4 * 16), '=', '=']
  | [a, b] => [b64Char (a / 4), b64Char (a % 4 * 16 + b / 16), b64Char (b % 16 * 4), '=']
  | a :: b :: c :: rest =>
      b64Char (a / 4) :: b64Char (a % 4 * 16 + b / 16) ::
        b64Char (b % 16 * 4 + c / 64) :: b64Char (c % 64) :: base64EncodeChars rest

/-- Base64-decode a character stream, modelling `atob`: four characters to
three bytes, with `'='` padding (or a short unpadded group) allowed only at
the very end, and failure on any character outside the alphabet. -/
def base64DecodeChars : List Char → Option (List Nat)
  | [] => some []
  | [c1, c2] => do
      let v1 ← b64Val c1
      let v2 ← b64Val c2
      some [v1 * 4 + v2 / 16]
  | [c1, c2, c3] => do
      let v1 ← b64Val c1
      let v2 ← b64Val c2
      let v3 ← b64Val c3
      some [v1 * 4 + v2 / 16, v2 % 16 * 16 + v3 / 4]
  | c1 :: c2 :: c3 :: c4 :: rest =>
      if rest = [] ∧ c3 = '=' ∧ c4 = '=' then do
        let v1 ← b64Val c1
        let v2 ← b64Val c2
        some [v1 * 4 + v2 / 16]
      else if rest = [] ∧ c4 = '=' then do
        let v1 ← b64Val c1
        let v2 ← b64Val c2
        let v3 ← b64Val c3
        some [v1 * 4 + v2 / 16, v2 % 16 * 16 + v3 / 4]
      else do
        let v1 ← b64Val c1
        let v2 ← b64Val c2
        let v3 ← b64Val c3
        let v4 ← b64Val c4
        let tail ← base64DecodeChars rest
        some ((v1 * 4 + v2 / 16) :: (v2 % 16 * 16 + v3 / 4) :: (v3 % 4 * 64 + v4) :: tail)
  | _ => none

/-- Source `arrayBufferToBase64`: bytes to base64 text (the source's chunking
only works around a JavaScript call-stack limit and does not change the
output). -/
def arrayBufferToBase64 (bytes : List Nat) : String :=
  String.mk (base64EncodeChars bytes)

/-- Source `base64ToArrayBuffer`: base64 text to bytes, failing (as `atob`
throws) on malformed input. -/
def base64ToArrayBuffer (base64 : String) : Option (List Nat) :=
  base64DecodeChars base64.data

/-- An alphabet character decodes back to its index. -/
theorem b64Val_b64Char_all : ∀ n < 64, b64Val (b64Char n) = some n := by decide

/-- An alphabet character decodes back to its index (hypothesis form). -/
theorem b64Val_b64Char {n : Nat} (h : n < 64) : b64Val (b64Char n) = some n :=
  b64Val_b64Char_all n h

/-- Alphabet characters are never the padding character. -/
theorem b64Char_ne_eq_all : ∀ n < 64, b64Char n ≠ '=' := by decide

/-- Alphabet characters are never the padding character (hypothesis form). -/
theorem b64Char_ne_eq {n : Nat} (h : n < 64) : b64Char n ≠ '=' :=
  b64Char_ne_eq_all n h

/-- Round trip of the encoding layer: decoding an encoded byte stream (all
entries genuine bytes) recovers it exactly. -/
theorem base64DecodeChars_encodeChars :
    ∀ (bs : List Nat), (∀ x ∈ bs, x < 256) →
      base64DecodeChars (base64EncodeChars bs) = some bs := by
  intro bs
  induction bs using base64EncodeChars.induct with
  | case1 => intro _; rfl
  | case2 a =>
      intro h
      have ha : a < 256 := h a (by simp)
      simp only [base64EncodeChars, base64DecodeChars]
      rw [if_pos ⟨trivial, trivial, trivial⟩, b64Val_b64Char (by omega),
        b64Val_b64Char (by omega)]
      simp only [Option.bind_eq_bind, Option.some_bind, Option.some.injEq,
        List.cons.injEq, and_true]
      omega
  | case3 a b =>
      intro h
      have ha : a < 256 := h a (by simp)
      have hb : b < 256 := h b (by simp)
      have hne : b64Char (b % 16 * 4) ≠ '=' := b64Char_ne_eq (by omega)
      simp only [base64EncodeChars, base64DecodeChars]
      rw [if_neg (fun hcontra => hne hcontra.2.1), if_pos ⟨trivial, trivial⟩,
        b64Val_b64Char (by omega), b64Val_b64Char (by omega), b64Val_b64Char (by omega)]
      simp only [Option.bind_eq_bind, Option.some_bind, Option.some.injEq,
        List.cons.injEq, and_true]
      refine ⟨by omega, by omega⟩
  | case4 a b c rest ih =>
      intro h
      have ha : a < 256 := h a (by simp)
      have hb : b < 256 := h b (by simp)
      have hc : c < 256 := h c (by simp)
      have hrest : ∀ x ∈ rest, x < 256 := fun x hx => h x (by simp [hx])
      have h1 : ¬(base64EncodeChars rest = [] ∧ b64Char (b % 16 * 4 + c / 64) = '=' ∧
          b64Char (c % 64) = '=') :=
        fun hcontra => b64Char_ne_eq (show b % 16 * 4 + c / 64 < 64 by omega) hcontra.2.1
      have h2 : ¬(base64EncodeChars rest = [] ∧ b64Char (c % 64) = '=') :=
        fun hcontra => b64Char_ne_eq (show c % 64 < 64 by omega) hcontra.2
      simp only [base64EncodeChars, base64DecodeChars]
      rw [if_neg h1, if_neg h2, b64Val_b64Char (by omega), b64Val_b64Char (by omega),
        b64Val_b64Char (by omega), b64Val_b64Char (by omega), ih hrest]
      simp only [Option.bind_eq_bind, Option.some_bind, Option.some.injEq,
        List.cons.injEq, and_true]
      refine ⟨by omega, by omega, by omega⟩

/-! ## Ideal authenticated cipher (model of Web Crypto PBKDF2 + AES-GCM)

The primitives `crypto.subtle.deriveKey` / `encrypt` / `decrypt` and
`TextEncoder`/`TextDecoder` are Web platform code, not repository code.  They
are modelled as an ideal authenticated cipher: the ciphertext is an injective
byte-stream encoding of (password, salt, iv, plaintext), and decryption
succeeds exactly when the derived key (password and salt) and the iv match,
returning the exact plaintext — the standard ideal functionality of an
authenticated GCM-class cipher with a password-derived key. -/

/-- Variable-length byte encoding of a natural number (7 bits per byte, high
bit marks continuation).  Every produced byte is `< 256`. -/
def encNat (n : Nat) : List Nat :=
  if h : n < 128 then [n] else (128 + n % 128) :: encNat (n / 128)
decreasing_by exact Nat.div_lt_self (by omega) (by omega)

/-- Decode a variable-length natural number, returning it and the rest. -/
def decNat : List Nat → Option (Nat × List Nat)
  | [] => none
  | b :: rest =>
      if b < 128 then some (b, rest)
      else do
        let (m, r) ← decNat rest
        some (m * 128 + (b - 128), r)

/-- The varint round-trips in front of any continuation. -/
theorem decNat_encNat : ∀ (n : Nat) (rest : List Nat),
    decNat (encNat n ++ rest) = some (n, rest) := by
  intro n
  induction n using encNat.induct with
  | case1 n h =>
      intro rest
      rw [encNat, dif_pos h]
      simp [decNat, h]
  | case2 n h ih =>
      intro rest
      rw [encNat, dif_neg h]
      simp only [List.cons_append, decNat, if_neg (by omega : ¬128 + n % 128 < 128),
        List.append_eq, ih, Option.bind_eq_bind, Option.some_bind, Option.some.injEq,
        Prod.mk.injEq]
      exact ⟨by omega, trivial⟩

/-- Bytes produced by `encNat` are genuine bytes. -/
theorem encNat_lt_256 : ∀ (n : Nat), ∀ x ∈ encNat n, x < 256 := by
  intro n
  induction n using encNat.induct with
  | case1 n h =>
      rw [encNat, dif_pos h]
      intro x hx
      simp only [List.mem_singleton] at hx
      omega
  | case2 n h ih =>
      rw [encNat, dif_neg h]
      intro x hx
      rcases List.mem_cons.mp hx with h' | h'
      · omega
      · exact ih x h'

/-- Length-prefixed byte segment. -/
def encSeg (l : List Nat) : List Nat := encNat l.length ++ l

/-- Decode a length-prefixed byte segment. -/
def decSeg (s : List Nat) : Option (List Nat × List Nat) := do
  let (n, r) ← decNat s
  if n ≤ r.length then some (r.take n, r.drop n) else none

/-- Length-prefixed segments round-trip in front of any continuation. -/
theorem decSeg_encSeg (l rest : List Nat) :
    decSeg (encSeg l ++ rest) = some (l, rest) := by
  simp only [decSeg, encSeg, List.append_assoc, decNat_encNat, Option.bind_eq_bind,
    Option.some_bind]
  rw [if_pos (by simp), List.take_left' rfl, List.drop_left' rfl]

/-- Bytes of a segment are bytes when the payload is. -/
theorem encSeg_lt_256 (l : List Nat) (hl : ∀ x ∈ l, x < 256) :
    ∀ x ∈ encSeg l, x < 256 := by
  intro x hx
  rcases List.mem_append.mp hx with h' | h'
  · exact encNat_lt_256 _ x h'
  · exact hl x h'

/-- Every character's code is a valid scalar value, stated over `Nat`. -/
theorem char_toNat_isValidChar (c : Char) : Nat.isValidChar c.toNat := by
  have h := c.valid
  unfold UInt32.isValidChar at h
  exact h

/-- Character codes are below `0x110000`. -/
theorem char_toNat_lt (c : Char) : c.toNat < 1114112 := by
  have h := char_toNat_isValidChar c
  unfold Nat.isValidChar at h
  omega

/-- Fixed three-byte encoding of a unicode scalar value (every scalar value is
below `0x110000 < 2^24`). -/
def encChar (c : Char) : List Nat := [c.toNat / 65536, c.toNat / 256 % 256, c.toNat % 256]

/-- Byte encoding of a character sequence. -/
def encodeChars : List Char → List Nat
  | [] => []
  | c :: cs => encChar c ++ encodeChars cs

/-- Decode three-byte groups back into characters, checking scalar validity. -/
def decodeChars : List Nat → Option (List Char)
  | [] => some []
  | b0 :: b1 :: b2 :: rest =>
      let n := b0 * 65536 + b1 * 256 + b2
      if n.isValidChar then do
        let cs ← decodeChars rest
        some (Char.ofNat n :: cs)
      else none
  | _ => none

/-- The character codec round-trips. -/
theorem decodeChars_encodeChars : ∀ (cs : List Char),
    decodeChars (encodeChars cs) = some cs := by
  intro cs
  induction cs with
  | nil => rfl
  | cons c cs ih =>
      have hval := char_toNat_lt c
      have hn : c.toNat / 65536 * 65536 + c.toNat / 256 % 256 * 256 + c.toNat % 256
          = c.toNat := by omega
      simp only [encodeChars, encChar, List.cons_append, List.nil_append, decodeChars, hn]
      rw [if_pos (char_toNat_isValidChar c)]
      simp only [List.append_eq, List.nil_append, ih, Option.bind_eq_bind, Option.some_bind,
        Option.some.injEq, List.cons.injEq, and_true]
      exact Char.ofNat_toNat c

/-- Character-codec bytes are genuine bytes. -/
theorem encodeChars_lt_256 : ∀ (cs : List Char), ∀ x ∈ encodeChars cs, x < 256 := by
  intro cs
  induction cs with
  | nil => intro x hx; simp [encodeChars] at hx
  | cons c cs ih =>
      intro x hx
      have hval := char_toNat_lt c
      simp only [encodeChars, encChar, List.cons_append, List.nil_append] at hx
      rcases List.mem_cons.mp hx with h' | hx
      · omega
      rcases List.mem_cons.mp hx with h' | hx
      · omega
      rcases List.mem_cons.mp hx with h' | hx
      · omega
      · exact ih x hx

/-- Length-prefixed byte encoding of a string (the model's stand-in for the
UTF-8 serialization boundary inside the ideal cipher). -/
def encString (s : String) : List Nat := encSeg (encodeChars s.data)

/-- Decode a length-prefixed string. -/
def decString (bs : List Nat) : Option (String × List Nat) := do
  let (chunk, rest) ← decSeg bs
  let cs ← decodeChars chunk
  some (String.mk cs, rest)

/-- The string codec round-trips in front of any continuation. -/
theorem decString_encString (s : String) (rest : List Nat) :
    decString (encString s ++ rest) = some (s, rest) := by
  simp [decString, encString, decSeg_encSeg, decodeChars_encodeChars]

/-- String-codec bytes are genuine bytes. -/
theorem encString_lt_256 (s : String) : ∀ x ∈ encString s, x < 256 :=
  encSeg_lt_256 _ (encodeChars_lt_256 s.data)

/-- Key material derived from a master password and a salt.  Source
`deriveKey` (PBKDF2-SHA-256, 100000 iterations, 256-bit AES-GCM key) is
deterministic in (password, salt); the ideal model keeps the pair itself. -/
structure DerivedKey where
  password : String
  salt : List Nat
deriving DecidableEq

/-- Source `deriveKey`, idealized: the derived key is determined by, and
determines, the (master password, salt) pair. -/
def deriveKey (masterPassword : String) (salt : List Nat) : DerivedKey :=
  ⟨masterPassword, salt⟩

/-- Ideal AES-GCM encryption of a plaintext string under a derived key and iv:
an injective byte encoding of key material, iv and plaintext. -/
def aesGcmEncrypt (key : DerivedKey) (iv : List Nat) (plaintext : String) : List Nat :=
  encString key.password ++ encSeg key.salt ++ encSeg iv ++ encString plaintext

/-- Ideal AES-GCM decryption: succeeds with the exact plaintext when the key
and iv match the ones used to encrypt, and fails otherwise (the single
authentication-failure signal of a GCM-class cipher). -/
def aesGcmDecrypt (key : DerivedKey) (iv : List Nat) (ciphertext : List Nat) :
    Option String := do
  let (p, r1) ← decString ciphertext
  let (s, r2) ← decSeg r1
  let (i, r3) ← decSeg r2
  let (plaintext, r4) ← decString r3
  if p = key.password ∧ s = key.salt ∧ i = iv ∧ r4 = [] then some plaintext else none

/-- The ideal cipher round-trips under the matching key and iv. -/
theorem aesGcmDecrypt_encrypt (key : DerivedKey) (iv : List Nat) (plaintext : String) :
    aesGcmDecrypt key iv (aesGcmEncrypt key iv plaintext) = some plaintext := by
  have h4 : encString plaintext ++ ([] : List Nat) = encString plaintext := by simp
  simp only [aesGcmDecrypt, aesGcmEncrypt, List.append_assoc, decString_encString,
    Option.bind_eq_bind, Option.some_bind, decSeg_encSeg]
  rw [← h4, decString_encString]
  simp

/-- Ciphertext bytes are genuine bytes whenever the salt and iv bytes are. -/
theorem aesGcmEncrypt_lt_256 (key : DerivedKey) (iv : List Nat) (plaintext : String)
    (hsalt : ∀ x ∈ key.salt, x < 256) (hiv : ∀ x ∈ iv, x < 256) :
    ∀ x ∈ aesGcmEncrypt key iv plaintext, x < 256 := by
  intro x hx
  simp only [aesGcmEncrypt, List.append_assoc, List.mem_append] at hx
  rcases hx with h' | h' | h' | h'
  · exact encString_lt_256 _ x h'
  · exact encSeg_lt_256 _ hsalt x h'
  · exact encSeg_lt_256 _ hiv x h'
  · exact encString_lt_256 _ x h'

/-! ## JSON values and text (model of `JSON.stringify` / `JSON.parse`)

JavaScript values produced by `JSON.parse`.  Model restrictions: numbers are
integers (the source's containers only ever contain the integer `1`),
duplicate object keys are kept in parse order, and `\u` escapes must denote
unicode scalar values (JavaScript also admits lone surrogates). -/

/-- A parsed JSON value. -/
inductive Json where
  | null : Json
  | bool (b : Bool) : Json
  | num (n : Int) : Json
  | str (s : String) : Json
  | arr (elements : List Json) : Json
  | obj (members : List (String × Json)) : Json

/-- Hexadecimal digit character (lowercase, as `JSON.stringify` emits). -/
def hexDigit (n : Nat) : Char := "0123456789abcdef".data.getD n '0'

/-- Escape one character the way `JSON.stringify` does inside string
literals: quote and backslash get two-character escapes, the five named
control characters get their short escapes, all other control characters get
`\u00XX`, and everything else is emitted verbatim. -/
def escapeChar (c : Char) : List Char :=
  if c = '"' then ['\\', '"']
  else if c = '\\' then ['\\', '\\']
  else if c = '\x08' then ['\\', 'b']
  else if c = '\x09' then ['\\', 't']
  else if c = '\x0a' then ['\\', 'n']
  else if c = '\x0c' then ['\\', 'f']
  else if c = '\x0d' then ['\\', 'r']
  else if c.toNat < 32 then ['\\', 'u', '0', '0', hexDigit (c.toNat / 16), hexDigit (c.toNat % 16)]
  else [c]

/-- Escape a character sequence for a JSON string literal. -/
def escapeChars : List Char → List Char
  | [] => []
  | c :: cs => escapeChar c ++ escapeChars cs

/-- A JSON string literal for `s`, followed by a continuation: opening quote,
escaped contents, closing quote. -/
def strLit (s : String) (rest : List Char) : List Char :=
  '"' :: (escapeChars s.data ++ '"' :: rest)

/-- Value of a hexadecimal digit character (either case). -/
def hexVal (c : Char) : Option Nat :=
  if 48 ≤ c.toNat ∧ c.toNat ≤ 57 then some (c.toNat - 48)
  else if 97 ≤ c.toNat ∧ c.toNat ≤ 102 then some (c.toNat - 87)
  else if 65 ≤ c.toNat ∧ c.toNat ≤ 70 then some (c.toNat - 55)
  else none

/-- Resolve a single-character JSON escape. -/
def unescapeChar (e : Char) : Option Char :=
  if e = '"' then some '"'
  else if e = '\\' then some '\\'
  else if e = '/' then some '/'
  else if e = 'b' then some '\x08'
  else if e = 'f' then some '\x0c'
  else if e = 'n' then some '\x0a'
  else if e = 'r' then some '\x0d'
  else if e = 't' then some '\x09'
  else none

/-- Parse the body of a JSON string literal (the opening quote already
consumed), returning the contents and the text after the closing quote.
Fails on raw control characters, invalid escapes, and unterminated
literals, as `JSON.parse` does. -/
def parseStringBody : List Char → Option (List Char × List Char)
  | [] => none
  | c :: rest =>
      if c = '"' then some ([], rest)
      else if c = '\\' then
        match rest with
        | [] => none
        | e :: rest2 =>
            if e = 'u' then
              match rest2 with
              | h1 :: h2 :: h3 :: h4 :: rest3 => do
                  let v1 ← hexVal h1
                  let v2 ← hexVal h2
                  let v3 ← hexVal h3
                  let v4 ← hexVal h4
                  let n := v1 * 4096 + v2 * 256 + v3 * 16 + v4
                  if n.isValidChar then do
                    let (cs, r) ← parseStringBody rest3
                    some (Char.ofNat n :: cs, r)
                  else none
              | _ => none
            else do
              let ec ← unescapeChar e
              let (cs, r) ← parseStringBody rest2
              some (ec :: cs, r)
      else if c.toNat < 32 then none
      else do
        let (cs, r) ← parseStringBody rest
        some (c :: cs, r)

/-- A hexadecimal digit round-trips. -/
theorem hexVal_hexDigit : ∀ n < 16, hexVal (hexDigit n) = some n := by decide

/-- A closing quote ends the string body. -/
theorem parseStringBody_closeQuote (rest : List Char) :
    parseStringBody ('"' :: rest) = some ([], rest) := by
  rw [parseStringBody.eq_def]
  simp

/-- An ordinary (unescaped) character is consumed verbatim. -/
theorem parseStringBody_plain (c : Char) (X : List Char)
    (h1 : ¬c = '"') (h2 : ¬c = '\\') (h3 : ¬c.toNat < 32) :
    parseStringBody (c :: X)
      = (parseStringBody X).bind fun p => some (c :: p.1, p.2) := by
  rw [parseStringBody.eq_def]
  simp only [if_neg h1, if_neg h2, if_neg h3]
  rfl

/-- A short escape is consumed as its escaped character. -/
theorem parseStringBody_escape (e d : Char) (X : List Char)
    (hu : ¬e = 'u') (hd : unescapeChar e = some d) :
    parseStringBody ('\\' :: e :: X)
      = (parseStringBody X).bind fun p => some (d :: p.1, p.2) := by
  rw [parseStringBody.eq_def]
  simp +decide only [if_neg hu, hd, Option.bind_eq_bind, Option.some_bind,
    if_true, if_false]

/-- A unicode escape is consumed as the denoted scalar value. -/
theorem parseStringBody_unicode (a b c d : Char) (va vb vc vd : Nat) (X : List Char)
    (ha : hexVal a = some va) (hb : hexVal b = some vb)
    (hc : hexVal c = some vc) (hd : hexVal d = some vd)
    (hval : Nat.isValidChar (va * 4096 + vb * 256 + vc * 16 + vd)) :
    parseStringBody ('\\' :: 'u' :: a :: b :: c :: d :: X)
      = (parseStringBody X).bind fun p =>
          some (Char.ofNat (va * 4096 + vb * 256 + vc * 16 + vd) :: p.1, p.2) := by
  rw [parseStringBody.eq_def]
  simp +decide only [ha, hb, hc, hd, Option.bind_eq_bind, Option.some_bind,
    if_pos hval, if_true, if_false]

/-- Parsing an escaped string body recovers the original characters and
leaves exactly the text after the closing quote. -/
theorem parseStringBody_escapeChars :
    ∀ (cs : List Char) (rest : List Char),
      parseStringBody (escapeChars cs ++ '"' :: rest) = some (cs, rest) := by
  intro cs
  induction cs with
  | nil =>
      intro rest
      simp only [escapeChars, List.nil_append]
      exact parseStringBody_closeQuote rest
  | cons c cs ih =>
      intro rest
      simp only [escapeChars, List.append_assoc]
      unfold escapeChar
      split_ifs with h1 h2 h3 h4 h5 h6 h7 h8
      · subst h1
        simp only [List.cons_append, List.nil_append]
        rw [parseStringBody_escape _ '\"' _ (by decide) (by decide), ih]
        rfl
      · subst h2
        simp only [List.cons_append, List.nil_append]
        rw [parseStringBody_escape _ '\\' _ (by decide) (by decide), ih]
        rfl
      · subst h3
        simp only [List.cons_append, List.nil_append]
        rw [parseStringBody_escape _ '\x08' _ (by decide) (by decide), ih]
        rfl
      · subst h4
        simp only [List.cons_append, List.nil_append]
        rw [parseStringBody_escape _ '\t' _ (by decide) (by decide), ih]
        rfl
      · subst h5
        simp only [List.cons_append, List.nil_append]
        rw [parseStringBody_escape _ '\n' _ (by decide) (by decide), ih]
        rfl
      · subst h6
        simp only [List.cons_append, List.nil_append]
        rw [parseStringBody_escape _ '\x0c' _ (by decide) (by decide), ih]
        rfl
      · subst h7
        simp only [List.cons_append, List.nil_append]
        rw [parseStringBody_escape _ '\x0d' _ (by decide) (by decide), ih]
        rfl
      · have hdiv : c.toNat / 16 < 16 := by omega
        have hmod : c.toNat % 16 < 16 := by omega
        have heq : (0 : Nat) * 4096 + 0 * 256 + c.toNat / 16 * 16 + c.toNat % 16
            = c.toNat := by omega
        have hvalid : Nat.isValidChar ((0 : Nat) * 4096 + 0 * 256 + c.toNat / 16 * 16
            + c.toNat % 16) := by
          rw [heq]
          unfold Nat.isValidChar
          omega
        simp only [List.cons_append, List.nil_append]
        rw [parseStringBody_unicode '0' '0' _ _ 0 0 (c.toNat / 16) (c.toNat % 16) _
          (by decide) (by decide) (hexVal_hexDigit _ hdiv) (hexVal_hexDigit _ hmod)
          hvalid, ih]
        simp only [Option.bind_eq_bind, Option.some_bind, Option.some.injEq,
          Prod.mk.injEq, List.cons.injEq, and_true, heq]
        exact Char.ofNat_toNat c
      · simp only [List.cons_append, List.nil_append]
        rw [parseStringBody_plain c _ h1 h2 h8, ih]
        rfl

/-! ## JSON value parser (model of `JSON.parse`) -/

/-- JSON insignificant whitespace. -/
def isWsChar (c : Char) : Bool := c = ' ' ∨ c = '\t' ∨ c = '\n' ∨ c = '\x0d'

/-- Skip insignificant whitespace. -/
def skipWs (s : List Char) : List Char := s.dropWhile isWsChar

/-- ASCII decimal digit test. -/
def isDigitChar (c : Char) : Bool := 48 ≤ c.toNat ∧ c.toNat ≤ 57

/-- Numeric value of a digit sequence. -/
def digitsToNat (ds : List Char) : Nat := ds.foldl (fun a c => a * 10 + (c.toNat - 48)) 0

/-- Parse a JSON number.  Model restriction: integers only (no fraction or
exponent part); the source's containers only ever carry the integer `1`.
Leading zeros are rejected as `JSON.parse` rejects them. -/
def parseNumber (s : List Char) : Option (Json × List Char) :=
  match s with
  | '-' :: rest =>
      let ds := rest.takeWhile isDigitChar
      let r := rest.dropWhile isDigitChar
      if ds = [] then none
      else if ds.headD '0' = '0' ∧ 1 < ds.length then none
      else some (.num (-(digitsToNat ds : Int)), r)
  | _ =>
      let ds := s.takeWhile isDigitChar
      let r := s.dropWhile isDigitChar
      if ds = [] then none
      else if ds.headD '0' = '0' ∧ 1 < ds.length then none
      else some (.num (digitsToNat ds), r)

mutual

/-- Parse one JSON value, returning it and the remaining text.  The fuel
argument only forces termination; `parseJsonChars` supplies enough for any
input (each unit of fuel consumes at least one input character). -/
def parseValue : Nat → List Char → Option (Json × List Char)
  | 0, _ => none
  | fuel + 1, s =>
      match skipWs s with
      | [] => none
      | c :: rest =>
          if c = '"' then
            match parseStringBody rest with
            | some (cs, r) => some (.str (String.mk cs), r)
            | none => none
          else if c = '\x7b' then
            match skipWs rest with
            | '\x7d' :: r2 => some (.obj [], r2)
            | r2 =>
                match parseMembers fuel r2 with
                | some (ms, r3) => some (.obj ms, r3)
                | none => none
          else if c = '[' then
            match skipWs rest with
            | ']' :: r2 => some (.arr [], r2)
            | r2 =>
                match parseElements fuel r2 with
                | some (vs, r3) => some (.arr vs, r3)
                | none => none
          else if c = 't' then
            match rest with
            | 'r' :: 'u' :: 'e' :: r => some (.bool true, r)
            | _ => none
          else if c = 'f' then
            match rest with
            | 'a' :: 'l' :: 's' :: 'e' :: r => some (.bool false, r)
            | _ => none
          else if c = 'n' then
            match rest with
            | 'u' :: 'l' :: 'l' :: r => some (.null, r)
            | _ => none
          else if c = '-' ∨ isDigitChar c then parseNumber (c :: rest)
          else none

/-- Parse the elements of a non-empty JSON array (after the opening bracket
and any whitespace), including the closing bracket. -/
def parseElements : Nat → List Char → Option (List Json × List Char)
  | 0, _ => none
  | fuel + 1, s =>
      match parseValue fuel s with
      | none => none
      | some (v, r1) =>
          match skipWs r1 with
          | ',' :: r2 =>
              match parseElements fuel r2 with
              | some (vs, r3) => some (v :: vs, r3)
              | none => none
          | ']' :: r2 => some ([v], r2)
          | _ => none

/-- Parse the members of a non-empty JSON object (after the opening brace
and any whitespace), including the closing brace. -/
def parseMembers : Nat → List Char → Option (List (String × Json) × List Char)
  | 0, _ => none
  | fuel + 1, s =>
      match skipWs s with
      | '"' :: rest =>
          match parseStringBody rest with
          | none => none
          | some (k, r1) =>
              match skipWs r1 with
              | ':' :: r2 =>
                  match parseValue fuel r2 with
                  | none => none
                  | some (v, r3) =>
                      match skipWs r3 with
                      | ',' :: r4 =>
                          match parseMembers fuel r4 with
                          | some (ms, r5) => some ((String.mk k, v) :: ms, r5)
                          | none => none
                      | '\x7d' :: r4 => some ([(String.mk k, v)], r4)
                      | _ => none
              | _ => none
      | _ => none

end

/-- Model of `JSON.parse` over a character sequence: parse one value and
require only whitespace after it. -/
def parseJsonChars (s : List Char) : Option Json :=
  match parseValue (s.length + 1) s with
  | some (j, rest) => if skipWs rest = [] then some j else none
  | none => none

/-- Model of `JSON.parse`. -/
def parseJson (s : String) : Option Json := parseJsonChars s.data

/-! ## JSON views of the record, blob and container, and JS value helpers -/

/-- The JSON object `JSON.parse` yields for a serialized record: the five
fields, in the declaration order of the `VaultItem` interface. -/
def vaultItemJson (r : VaultItem) : Json :=
  .obj [("title", .str r.title), ("username", .str r.username),
    ("password", .str r.password), ("url", .str r.url), ("notes", .str r.notes)]

/-- The JSON object for an encrypted blob inside an export container. -/
def blobJson (b : EncryptedData) : Json :=
  .obj [("encrypted", .str b.encrypted), ("salt", .str b.salt), ("iv", .str b.iv)]

/-- The JSON object for a whole export container. -/
def containerJson (timestamp : String) (blobs : List EncryptedData) : Json :=
  .obj [("version", .num 1), ("timestamp", .str timestamp),
    ("items", .arr (blobs.map blobJson))]

/-- JavaScript property read `j[k]` for the keys the source reads: a present
object member, or `undefined` (`none`) on objects without the key and on
primitives/arrays (none of which have the read keys). -/
def jsLookup (j : Json) (k : String) : Option Json :=
  match j with
  | .obj ms => ms.lookup k
  | _ => none

/-- JavaScript truthiness of a parsed JSON value (no `NaN` in the model). -/
def truthy : Json → Bool
  | .null => false
  | .bool b => b
  | .num n => decide (n ≠ 0)
  | .str s => decide (s ≠ "")
  | .arr _ => true
  | .obj _ => true

/-- JavaScript truthiness of a possibly-`undefined` value. -/
def truthyOpt : Option Json → Bool
  | none => false
  | some j => truthy j

/-- JavaScript string coercion as `atob` applies it to a non-string argument.
Approximation: arrays coerce in JavaScript to their comma-joined elements and
plain objects to "[object Object]"; the model uses fixed bracketed sentinels,
which (like almost every coerced array) fail base64 decoding.  No claim
depends on the contrived arrays whose join would be valid base64. -/
def jsToStringCoerce : Option Json → String
  | none => "undefined"
  | some .null => "null"
  | some (.bool true) => "true"
  | some (.bool false) => "false"
  | some (.num n) => toString n
  | some (.str s) => s
  | some (.arr _) => "[object Array]"
  | some (.obj _) => "[object Object]"

/-- Read a field of a parsed item the way `decryptVaultItem`'s caller feeds
it to `atob`: property read, then string coercion. -/
def jsField (item : Json) (k : String) : String := jsToStringCoerce (jsLookup item k)

/-! ## Serialization of the record and the export container
(`JSON.stringify` at the source's two call sites) -/

/-- The exact text `JSON.stringify` produces for a `VaultItem` (keys in
interface declaration order), with a continuation. -/
def printVaultItemChars (data : VaultItem) (rest : List Char) : List Char :=
  '\x7b' :: strLit "title" (':' :: strLit data.title (',' ::
    strLit "username" (':' :: strLit data.username (',' ::
    strLit "password" (':' :: strLit data.password (',' ::
    strLit "url" (':' :: strLit data.url (',' ::
    strLit "notes" (':' :: strLit data.notes ('\x7d' :: rest))))))))))

/-- The text of one encrypted blob inside the export container. -/
def printBlobChars (b : EncryptedData) (rest : List Char) : List Char :=
  '\x7b' :: strLit "encrypted" (':' :: strLit b.encrypted (',' ::
    strLit "salt" (':' :: strLit b.salt (',' ::
    strLit "iv" (':' :: strLit b.iv ('\x7d' :: rest))))))

/-- Continuation of a blob array after its first element. -/
def printBlobListTail : List EncryptedData → List Char → List Char
  | [], rest => ']' :: rest
  | b :: bs, rest => ',' :: printBlobChars b (printBlobListTail bs rest)

/-- The text of the blob array of the export container. -/
def printBlobListChars (bs : List EncryptedData) (rest : List Char) : List Char :=
  match bs with
  | [] => '[' :: ']' :: rest
  | b :: bs => '[' :: printBlobChars b (printBlobListTail bs rest)

/-- The text of the export container `{version: 1, timestamp, items}`,
printed compactly (the source asks `JSON.stringify` for an indent of 2,
which only adds whitespace the parser skips). -/
def printContainerChars (timestamp : String) (blobs : List EncryptedData)
    (rest : List Char) : List Char :=
  '\x7b' :: strLit "version" (':' :: '1' :: ',' ::
    strLit "timestamp" (':' :: strLit timestamp (',' ::
    strLit "items" (':' :: printBlobListChars blobs ('\x7d' :: rest)))))

/-! ## Source operations: encrypt, decrypt, export, import -/

/-- Source `encryptVaultItem`.  The fresh random salt and iv drawn from
`crypto.getRandomValues` are passed explicitly; the plaintext is
`JSON.stringify(data)`, encrypted under the derived key and base64-wrapped. -/
def encryptVaultItem (data : VaultItem) (masterPassword : String)
    (salt iv : List Nat) : EncryptedData :=
  { encrypted := arrayBufferToBase64
      (aesGcmEncrypt (deriveKey masterPassword salt) iv
        (String.mk (printVaultItemChars data [])))
    salt := arrayBufferToBase64 salt
    iv := arrayBufferToBase64 iv }

/-- Source `decryptVaultItem`: base64-decode the three fields, re-derive the
key from the blob's salt, authenticated-decrypt, `JSON.parse` the plaintext
and return the parsed value as-is (the source performs no field validation).
The error strings mirror the exceptions of `atob`, `crypto.subtle.decrypt`
and `JSON.parse`. -/
def decryptVaultItem (encryptedData : EncryptedData) (masterPassword : String) :
    Except String Json :=
  match base64ToArrayBuffer encryptedData.salt with
  | none => .error "InvalidCharacterError"
  | some salt =>
      match base64ToArrayBuffer encryptedData.iv with
      | none => .error "InvalidCharacterError"
      | some iv =>
          match base64ToArrayBuffer encryptedData.encrypted with
          | none => .error "InvalidCharacterError"
          | some encrypted =>
              match aesGcmDecrypt (deriveKey masterPassword salt) iv encrypted with
              | none => .error "OperationError"
              | some plaintext =>
                  match parseJson plaintext with
                  | none => .error "SyntaxError"
                  | some j => .ok j

/-- `decryptVaultItem` as invoked from `importVaultData` on a parsed JSON
item: reading a property of `null` throws, and non-string fields reach
`atob` string-coerced. -/
def decryptVaultItemJson (item : Json) (masterPassword : String) :
    Except String Json :=
  match item with
  | .null => .error "TypeError"
  | _ => decryptVaultItem
      ⟨jsField item "encrypted", jsField item "salt", jsField item "iv"⟩ masterPassword

/-- Source `exportVaultData`: encrypt each item independently with its own
fresh salt/iv pair (passed explicitly, one pair per item, as drawn from
`crypto.getRandomValues`), wrap with `version = 1` and the generation
timestamp (`new Date().toISOString()`, passed explicitly), and serialize. -/
def exportVaultData (items : List VaultItem) (masterPassword : String)
    (rands : List (List Nat × List Nat)) (timestamp : String) : String :=
  String.mk (printContainerChars timestamp
    ((items.zip rands).map fun p => encryptVaultItem p.1 masterPassword p.2.1 p.2.2) [])

/-- The body of source `importVaultData` before its catch-all handler:
`JSON.parse` the container (throwing on malformed text), fail with
`'Invalid export file format'` when `!data.version || !data.items` (JS
truthiness; reading a property of `null` throws first), and otherwise
decrypt every item via `Promise.all` (all-or-nothing, order preserving). -/
def importVaultDataCore (exportedData : String) (masterPassword : String) :
    Except String (List Json) :=
  match parseJson exportedData with
  | none => .error "SyntaxError"
  | some data =>
      match data with
      | .null => .error "TypeError"
      | _ =>
          if truthyOpt (jsLookup data "version") = false
              ∨ truthyOpt (jsLookup data "items") = false then
            .error "Invalid export file format"
          else
            match jsLookup data "items" with
            | some (.arr items) => items.mapM (fun it => decryptVaultItemJson it masterPassword)
            | _ => .error "TypeError"

/-- Source `importVaultData`: the body wrapped in the catch-all that masks
every failure as one generic error message. -/
def importVaultData (exportedData : String) (masterPassword : String) :
    Except String (List Json) :=
  match importVaultDataCore exportedData masterPassword with
  | .ok items => .ok items
  | .error _ => .error "Failed to import vault data. Check your master password."

/-! ## Password generator (`generateSecurePassword`) -/

/-- Source charset constants. -/
def lowercaseChars : List Char := "abcdefghijklmnopqrstuvwxyz".data

/-- Source charset constants. -/
def uppercaseChars : List Char := "ABCDEFGHIJKLMNOPQRSTUVWXYZ".data

/-- Source charset constants. -/
def numberChars : List Char := "0123456789".data

/-- Source charset constants (the braces are the literal characters). -/
def symbolChars : List Char := "!@#$%^&*()_+-=[]\x7b\x7d|;:,.<>?".data

/-- Source list of visually-ambiguous characters. -/
def ambiguousChars : List Char := "il1Lo0O".data

/-- The final charset `generateSecurePassword` draws from: lowercase and
uppercase letters always, digits and symbols per the options, and the
ambiguous characters filtered out afterwards when requested. -/
def passwordCharset (options : PasswordOptions) : List Char :=
  let base := lowercaseChars ++ uppercaseChars
  let withNumbers := if options.includeNumbers then base ++ numberChars else base
  let withSymbols := if options.includeSymbols then withNumbers ++ symbolChars else withNumbers
  if options.excludeAmbiguous then
    withSymbols.filter (fun c => !(ambiguousChars.contains c))
  else withSymbols

/-- Source `generateSecurePassword`: one output character per 32-bit random
word (the draw from `crypto.getRandomValues(new Uint32Array(length))` is
passed explicitly; theorems assume `randomValues.length = options.length`),
each selected as `charset[u % charset.length]`.  The `getD` default is
unreachable: the charset is never empty. -/
def generateSecurePassword (options : PasswordOptions) (randomValues : List Nat) : String :=
  let charset := passwordCharset options
  String.mk (randomValues.map fun u => charset.getD (u % charset.length) 'A')

/-! ## Strength estimator (`calculatePasswordEntropy` / `estimateTimeToCrack`) -/

/-- Test for the `/[a-z]/` class. -/
def isLowerChar (c : Char) : Bool := 97 ≤ c.toNat ∧ c.toNat ≤ 122

/-- Test for the `/[A-Z]/` class. -/
def isUpperChar (c : Char) : Bool := 65 ≤ c.toNat ∧ c.toNat ≤ 90

/-- Test for the `/[^a-zA-Z0-9]/` class. -/
def isSpecialChar (c : Char) : Bool := !(isLowerChar c || isUpperChar c || isDigitChar c)

/-- The effective alphabet size of `calculatePasswordEntropy`: nominal sizes
26, 26, 10 and 32 summed over exactly the classes that appear anywhere in
the password. -/
def passwordCharsetSize (password : String) : Nat :=
  (if password.data.any isLowerChar then 26 else 0) +
  (if password.data.any isUpperChar then 26 else 0) +
  (if password.data.any isDigitChar then 10 else 0) +
  (if password.data.any isSpecialChar then 32 else 0)

/-- Source `calculatePasswordEntropy`: `Math.log2(Math.pow(charsetSize,
password.length))`, over the reals (the source computes in floating point;
the claims are about the exact mathematical function it implements). -/
noncomputable def calculatePasswordEntropy (password : String) : ℝ :=
  Real.logb 2 ((passwordCharsetSize password : ℝ) ^ password.length)

/-- The strength-tier selection of source `estimateTimeToCrack` as a function
of the computed years-to-crack, over exact rationals: strictly-less-than
comparisons against 0.001, 1, 1000 and 1000000 select the tier. -/
def estimateTimeToCrackStrength (yearsToCrack : ℚ) : String :=
  if yearsToCrack < 1 / 1000 then "Very Weak"
  else if yearsToCrack < 1 then "Weak"
  else if yearsToCrack < 1000 then "Moderate"
  else if yearsToCrack < 1000000 then "Strong"
  else "Very Strong"

/-! ## Parse round trips for the printed forms -/

/-- A non-whitespace head survives whitespace skipping. -/
theorem skipWs_cons (c : Char) (l : List Char) (h : isWsChar c = false) :
    skipWs (c :: l) = c :: l := by
  simp [skipWs, List.dropWhile_cons, h]

/-- Strings are their character lists. -/
theorem stringMk_data (s : String) : String.mk s.data = s := rfl

/-- A printed string literal parses back to the string value. -/
theorem parseValue_strLit (g : Nat) (s : String) (rest : List Char) :
    parseValue (g + 1) (strLit s rest) = some (.str s, rest) := by
  unfold strLit
  simp only [parseValue]
  rw [skipWs_cons _ _ (by decide)]
  simp +decide only [parseStringBody_escapeChars, if_true, if_false, stringMk_data]

/-- Object-member parsing: a printed member followed by a comma prepends to the remaining members. -/
theorem parseMembers_cons_gen (g : Nat) (k : String) (valText next : List Char)
    (v : Json) (ms : List (String × Json)) (rest : List Char)
    (hv : parseValue g valText = some (v, ',' :: next))
    (hm : parseMembers g next = some (ms, rest)) :
    parseMembers (g + 1) (strLit k (':' :: valText)) = some ((k, v) :: ms, rest) := by
  unfold strLit
  simp only [parseMembers]
  rw [skipWs_cons _ _ (by decide)]
  simp only [parseStringBody_escapeChars]
  rw [skipWs_cons _ _ (by decide)]
  simp only [hv]
  rw [skipWs_cons _ _ (by decide)]
  simp only [hm, stringMk_data]

/-- Object-member parsing: a printed member followed by the closing brace ends the object. -/
theorem parseMembers_last_gen (g : Nat) (k : String) (valText : List Char)
    (v : Json) (rest : List Char)
    (hv : parseValue g valText = some (v, '\x7d' :: rest)) :
    parseMembers (g + 1) (strLit k (':' :: valText)) = some ([(k, v)], rest) := by
  unfold strLit
  simp only [parseMembers]
  rw [skipWs_cons _ _ (by decide)]
  simp only [parseStringBody_escapeChars]
  rw [skipWs_cons _ _ (by decide)]
  simp only [hv]
  rw [skipWs_cons _ _ (by decide)]
  simp only [stringMk_data]

/-- An object whose members parse is parsed as that object. -/
theorem parseValue_objValue (g : Nat) (tail : List Char)
    (ms : List (String × Json)) (rest : List Char)
    (h : parseMembers g ('"' :: tail) = some (ms, rest)) :
    parseValue (g + 1) ('\x7b' :: '"' :: tail) = some (.obj ms, rest) := by
  simp only [parseValue]
  change (match parseMembers g ('"' :: tail) with
    | some (ms, r3) => some (Json.obj ms, r3)
    | none => none) = _
  rw [h]

/-- The empty-array text parses to the empty array. -/
theorem parseValue_arrEmpty (g : Nat) (rest : List Char) :
    parseValue (g + 1) ('[' :: ']' :: rest) = some (.arr [], rest) := by
  simp only [parseValue]
  rfl

/-- An array whose element list parses is parsed as that array. -/
theorem parseValue_arrValue (g : Nat) (tail : List Char)
    (vs : List Json) (rest : List Char)
    (h : parseElements g ('\x7b' :: tail) = some (vs, rest)) :
    parseValue (g + 1) ('[' :: '\x7b' :: tail) = some (.arr vs, rest) := by
  simp only [parseValue]
  change (match parseElements g ('\x7b' :: tail) with
    | some (vs, r3) => some (Json.arr vs, r3)
    | none => none) = _
  rw [h]

/-- The literal `1` before a comma parses as the number one. -/
theorem parseValue_versionOne (g : Nat) (tail : List Char) :
    parseValue (g + 1) ('1' :: ',' :: tail) = some (.num 1, ',' :: tail) := by
  simp only [parseValue]
  rfl

/-- One-step unfolding of the element parser at a successor fuel. -/
theorem parseElements_succ (f : Nat) (s : List Char) :
    parseElements (f + 1) s =
      match parseValue f s with
      | none => none
      | some (v, r1) =>
          match skipWs r1 with
          | ',' :: r2 =>
              (match parseElements f r2 with
               | some (vs, r3) => some (v :: vs, r3)
               | none => none)
          | ']' :: r2 => some ([v], r2)
          | _ => none := by rfl

/-- The printed record parses back to its five-field JSON object. -/
theorem parseValue_printVaultItem (r : VaultItem) (g : Nat) (rest : List Char) :
    parseValue (g + 7) (printVaultItemChars r rest) = some (vaultItemJson r, rest) := by
  have h5 : parseMembers (g + 2) (strLit "notes" (':' :: strLit r.notes ('\x7d' :: rest)))
      = some ([("notes", .str r.notes)], rest) :=
    parseMembers_last_gen (g + 1) _ _ _ _ (parseValue_strLit g r.notes _)
  have h4 := parseMembers_cons_gen (g + 2) "url"
    (strLit r.url (',' :: strLit "notes" (':' :: strLit r.notes ('\x7d' :: rest)))) _
    (.str r.url) _ rest (parseValue_strLit (g + 1) r.url _) h5
  have h3 := parseMembers_cons_gen (g + 3) "password"
    (strLit r.password (',' :: strLit "url" (':' :: strLit r.url (',' ::
      strLit "notes" (':' :: strLit r.notes ('\x7d' :: rest)))))) _
    (.str r.password) _ rest (parseValue_strLit (g + 2) r.password _) h4
  have h2 := parseMembers_cons_gen (g + 4) "username"
    (strLit r.username (',' :: strLit "password" (':' :: strLit r.password (',' ::
      strLit "url" (':' :: strLit r.url (',' ::
      strLit "notes" (':' :: strLit r.notes ('\x7d' :: rest)))))))) _
    (.str r.username) _ rest (parseValue_strLit (g + 3) r.username _) h3
  have h1 := parseMembers_cons_gen (g + 5) "title"
    (strLit r.title (',' :: strLit "username" (':' :: strLit r.username (',' ::
      strLit "password" (':' :: strLit r.password (',' ::
      strLit "url" (':' :: strLit r.url (',' ::
      strLit "notes" (':' :: strLit r.notes ('\x7d' :: rest)))))))))) _
    (.str r.title) _ rest (parseValue_strLit (g + 4) r.title _) h2
  unfold printVaultItemChars
  exact parseValue_objValue (g + 6) _ _ _ h1

/-- A printed blob parses back to its three-field JSON object. -/
theorem parseValue_printBlob (b : EncryptedData) (g : Nat) (rest : List Char) :
    parseValue (g + 5) (printBlobChars b rest) = some (blobJson b, rest) := by
  have h3 : parseMembers (g + 2) (strLit "iv" (':' :: strLit b.iv ('\x7d' :: rest)))
      = some ([("iv", .str b.iv)], rest) :=
    parseMembers_last_gen (g + 1) _ _ _ _ (parseValue_strLit g b.iv _)
  have h2 := parseMembers_cons_gen (g + 2) "salt"
    (strLit b.salt (',' :: strLit "iv" (':' :: strLit b.iv ('\x7d' :: rest)))) _
    (.str b.salt) _ rest (parseValue_strLit (g + 1) b.salt _) h3
  have h1 := parseMembers_cons_gen (g + 3) "encrypted"
    (strLit b.encrypted (',' :: strLit "salt" (':' :: strLit b.salt (',' ::
      strLit "iv" (':' :: strLit b.iv ('\x7d' :: rest)))))) _
    (.str b.encrypted) _ rest (parseValue_strLit (g + 2) b.encrypted _) h2
  unfold printBlobChars
  exact parseValue_objValue (g + 4) _ _ _ h1

/-- A printed non-empty blob array body parses back to the mapped blob objects. -/
theorem parseElements_blobs : ∀ (bs : List EncryptedData) (b : EncryptedData)
    (g : Nat) (rest : List Char),
    parseElements (g + bs.length + 6) (printBlobChars b (printBlobListTail bs rest))
      = some ((b :: bs).map blobJson, rest) := by
  intro bs
  induction bs with
  | nil =>
      intro b g rest
      rw [show g + ([] : List EncryptedData).length + 6 = (g + 5) + 1 from by
        simp [List.length_nil]]
      rw [parseElements_succ, printBlobListTail, parseValue_printBlob b g (']' :: rest)]
      simp only []
      rw [skipWs_cons _ _ (by decide)]
      rfl
  | cons b2 bs2 ih =>
      intro b g rest
      rw [show g + (b2 :: bs2).length + 6 = (g + bs2.length + 6) + 1 from by
        simp [List.length_cons]; omega]
      rw [parseElements_succ, printBlobListTail]
      rw [show g + bs2.length + 6 = (g + bs2.length + 1) + 5 from by omega]
      rw [parseValue_printBlob b (g + bs2.length + 1)]
      simp only []
      rw [skipWs_cons _ _ (by decide)]
      simp only []
      rw [show (g + bs2.length + 1) + 5 = g + bs2.length + 6 from by omega]
      rw [ih b2 g rest]
      simp


/-- A printed blob array parses back to the mapped blob objects. -/
theorem parseValue_printBlobList (blobs : List EncryptedData) (g : Nat) (X : List Char) :
    parseValue (g + blobs.length + 7) (printBlobListChars blobs X)
      = some (.arr (blobs.map blobJson), X) := by
  cases blobs with
  | nil =>
      rw [show g + ([] : List EncryptedData).length + 7 = (g + 6) + 1 from by simp]
      simp only [printBlobListChars, List.map_nil]
      exact parseValue_arrEmpty (g + 6) X
  | cons b bs =>
      have h := parseElements_blobs bs b (g + 1) X
      rw [printBlobChars] at h
      rw [show g + (b :: bs).length + 7 = ((g + 1) + bs.length + 6) + 1 from by
        simp [List.length_cons]; omega]
      simp only [printBlobListChars, printBlobChars]
      exact parseValue_arrValue ((g + 1) + bs.length + 6) _ _ _ h

/-- A printed container parses back to its container object. -/
theorem parseValue_printContainer (ts : String) (blobs : List EncryptedData)
    (g : Nat) (rest : List Char) :
    parseValue (g + blobs.length + 11) (printContainerChars ts blobs rest)
      = some (containerJson ts blobs, rest) := by
  have hArr := parseValue_printBlobList blobs g ('\x7d' :: rest)
  have m3 := parseMembers_last_gen (g + blobs.length + 7) "items" _
    (.arr (blobs.map blobJson)) rest hArr
  have m2 := parseMembers_cons_gen (g + blobs.length + 8) "timestamp"
    (strLit ts (',' :: strLit "items" (':' :: printBlobListChars blobs ('\x7d' :: rest)))) _
    (.str ts) _ rest (parseValue_strLit (g + blobs.length + 7) ts _) m3
  have m1 := parseMembers_cons_gen (g + blobs.length + 9) "version"
    ('1' :: ',' :: strLit "timestamp" (':' :: strLit ts (',' ::
      strLit "items" (':' :: printBlobListChars blobs ('\x7d' :: rest))))) _
    (.num 1) _ rest (parseValue_versionOne (g + blobs.length + 8) _) m2
  rw [show g + blobs.length + 11 = (g + blobs.length + 10) + 1 from by omega]
  unfold printContainerChars
  exact parseValue_objValue (g + blobs.length + 10) _ _ _ m1

/-- Escaping never erases a character. -/
theorem escapeChar_length_pos (c : Char) : 1 ≤ (escapeChar c).length := by
  unfold escapeChar
  split_ifs <;> simp

/-- Length of a printed string literal. -/
theorem strLit_length (s : String) (rest : List Char) :
    (strLit s rest).length = (escapeChars s.data).length + rest.length + 2 := by
  simp [strLit]
  omega

/-- A printed record is comfortably longer than the fuel its parse needs. -/
theorem printVaultItemChars_length_ge (r : VaultItem) (rest : List Char) :
    rest.length + 12 ≤ (printVaultItemChars r rest).length := by
  simp only [printVaultItemChars, strLit_length, List.length_cons]
  omega

/-- A printed blob is comfortably longer than the fuel its parse needs. -/
theorem printBlobChars_length_ge (b : EncryptedData) (rest : List Char) :
    rest.length + 19 ≤ (printBlobChars b rest).length := by
  simp only [printBlobChars, strLit_length, List.length_cons]
  omega

/-- Lower bound on the printed blob-array tail. -/
theorem printBlobListTail_length_ge : ∀ (bs : List EncryptedData) (rest : List Char),
    rest.length + 20 * bs.length + 1 ≤ (printBlobListTail bs rest).length := by
  intro bs
  induction bs with
  | nil => intro rest; simp [printBlobListTail]
  | cons b bs ih =>
      intro rest
      have h1 := printBlobChars_length_ge b (printBlobListTail bs rest)
      have h2 := ih rest
      simp only [printBlobListTail, List.length_cons]
      omega

/-- Lower bound on the printed blob array. -/
theorem printBlobListChars_length_ge (bs : List EncryptedData) (rest : List Char) :
    rest.length + 20 * bs.length + 1 ≤ (printBlobListChars bs rest).length := by
  cases bs with
  | nil => simp [printBlobListChars]
  | cons b bs =>
      have h1 := printBlobChars_length_ge b (printBlobListTail bs rest)
      have h2 := printBlobListTail_length_ge bs rest
      simp only [printBlobListChars, List.length_cons]
      omega

/-- A printed container is comfortably longer than the fuel its parse needs. -/
theorem printContainerChars_length_ge (ts : String) (blobs : List EncryptedData)
    (rest : List Char) :
    rest.length + 20 * blobs.length + 15 ≤ (printContainerChars ts blobs rest).length := by
  have h1 := printBlobListChars_length_ge blobs ('\x7d' :: rest)
  simp only [List.length_cons] at h1
  simp only [printContainerChars, strLit_length, List.length_cons]
  omega

/-- `JSON.parse` of a stringified record yields exactly the record object. -/
theorem parseJson_printVaultItem (r : VaultItem) :
    parseJson (String.mk (printVaultItemChars r [])) = some (vaultItemJson r) := by
  unfold parseJson parseJsonChars
  have hL : 12 ≤ (printVaultItemChars r []).length := by
    have := printVaultItemChars_length_ge r []
    simpa using this
  rw [show (String.mk (printVaultItemChars r [])).data = printVaultItemChars r []
    from rfl]
  rw [show (printVaultItemChars r []).length + 1
    = ((printVaultItemChars r []).length - 6) + 7 from by omega]
  rw [parseValue_printVaultItem r ((printVaultItemChars r []).length - 6) []]
  rfl

/-- `JSON.parse` of a stringified container yields exactly the container object. -/
theorem parseJson_printContainer (ts : String) (blobs : List EncryptedData) :
    parseJson (String.mk (printContainerChars ts blobs []))
      = some (containerJson ts blobs) := by
  unfold parseJson parseJsonChars
  have hL : 20 * blobs.length + 15 ≤ (printContainerChars ts blobs []).length := by
    have := printContainerChars_length_ge ts blobs []
    simpa using this
  rw [show (String.mk (printContainerChars ts blobs [])).data
    = printContainerChars ts blobs [] from rfl]
  rw [show (printContainerChars ts blobs []).length + 1
    = ((printContainerChars ts blobs []).length - blobs.length - 10)
      + blobs.length + 11 from by omega]
  rw [parseValue_printContainer ts blobs _ []]
  rfl

/-! ## The claims -/

/-- The characters of a built string. -/
theorem stringData_mk (l : List Char) : (String.mk l).data = l := rfl

/-- Decrypting an encrypted record under the same password recovers the parsed record object. -/
theorem decryptVaultItem_encryptVaultItem (r : VaultItem) (p : String)
    (salt iv : List Nat)
    (hsalt : ∀ x ∈ salt, x < 256) (hiv : ∀ x ∈ iv, x < 256) :
    decryptVaultItem (encryptVaultItem r p salt iv) p = .ok (vaultItemJson r) := by
  have hct : ∀ x ∈ aesGcmEncrypt (deriveKey p salt) iv
      (String.mk (printVaultItemChars r [])), x < 256 :=
    aesGcmEncrypt_lt_256 _ _ _ hsalt hiv
  unfold decryptVaultItem encryptVaultItem arrayBufferToBase64 base64ToArrayBuffer
  simp only [stringData_mk]
  rw [base64DecodeChars_encodeChars salt hsalt]
  simp only []
  rw [base64DecodeChars_encodeChars iv hiv]
  simp only []
  rw [base64DecodeChars_encodeChars _ hct]
  simp only []
  rw [aesGcmDecrypt_encrypt]
  simp only []
  rw [show parseJson (String.mk (printVaultItemChars r []))
    = some (vaultItemJson r) from parseJson_printVaultItem r]

/-- Item decryption on the parsed blob object equals decryption of the blob itself. -/
theorem decryptVaultItemJson_blobJson (b : EncryptedData) (p : String) :
    decryptVaultItemJson (blobJson b) p = decryptVaultItem b p := by
  rfl

/-- Monadic map over the empty list. -/
theorem exceptMapM_nil (f : Json → Except String Json) :
    ([] : List Json).mapM f = .ok [] := by
  rw [List.mapM_nil]
  rfl

/-- Monadic map over a cons, in explicit bind form. -/
theorem exceptMapM_cons (f : Json → Except String Json) (a : Json) (l : List Json) :
    (a :: l).mapM f
      = (f a).bind fun b => (l.mapM f).bind fun bs => .ok (b :: bs) := by
  rw [List.mapM_cons]
  rfl

/-- A successful monadic map means every element succeeded. -/
theorem exceptMapM_ok_forall (f : Json → Except String Json) :
    ∀ (l : List Json) (res : List Json), l.mapM f = .ok res → ∀ a ∈ l, ∃ b, f a = .ok b := by
  intro l
  induction l with
  | nil => intro res _ a ha; simp at ha
  | cons x xs ih =>
      intro res hres a ha
      rw [exceptMapM_cons] at hres
      cases hfx : f x with
      | error e => rw [hfx] at hres; simp [Except.bind] at hres
      | ok b =>
          rw [hfx] at hres
          cases hrest : xs.mapM f with
          | error e => rw [hrest] at hres; simp [Except.bind] at hres
          | ok bs =>
              rcases List.mem_cons.mp ha with h | h
              · exact ⟨b, h ▸ hfx⟩
              · exact ih bs hrest a h

/-- A failed monadic map names the error of some element. -/
theorem exceptMapM_error_mem (f : Json → Except String Json) :
    ∀ (l : List Json) (e : String), l.mapM f = .error e → ∃ a ∈ l, f a = .error e := by
  intro l
  induction l with
  | nil =>
      intro e he
      rw [List.mapM_nil] at he
      exact Except.noConfusion he
  | cons x xs ih =>
      intro e he
      rw [exceptMapM_cons] at he
      cases hfx : f x with
      | error e2 =>
          rw [hfx] at he
          simp [Except.bind] at he
          exact ⟨x, by simp, by rw [hfx, he]⟩
      | ok b =>
          rw [hfx] at he
          cases hrest : xs.mapM f with
          | error e2 =>
              rw [hrest] at he
              simp [Except.bind] at he
              rcases ih e2 hrest with ⟨a, ha, hfa⟩
              exact ⟨a, by simp [ha], by rw [hfa, he]⟩
          | ok bs => rw [hrest] at he; simp [Except.bind] at he


/-- Decrypting a list of freshly encrypted blobs recovers every record, in order. -/
theorem mapM_decrypt_encrypt (p : String) :
    ∀ (pairs : List (VaultItem × (List Nat × List Nat))),
      (∀ pr ∈ pairs, (∀ x ∈ pr.2.1, x < 256) ∧ (∀ x ∈ pr.2.2, x < 256)) →
      (((pairs.map fun pr => encryptVaultItem pr.1 p pr.2.1 pr.2.2).map blobJson).mapM
          fun it => decryptVaultItemJson it p)
        = .ok (pairs.map fun pr => vaultItemJson pr.1) := by
  intro pairs
  induction pairs with
  | nil => intro _; simp only [List.map_nil]; exact exceptMapM_nil _
  | cons pr prs ih =>
      intro h
      have hpr := h pr (by simp)
      have hprs : ∀ q ∈ prs, (∀ x ∈ q.2.1, x < 256) ∧ (∀ x ∈ q.2.2, x < 256) :=
        fun q hq => h q (by simp [hq])
      simp only [List.map_cons]
      rw [exceptMapM_cons, decryptVaultItemJson_blobJson,
        decryptVaultItem_encryptVaultItem pr.1 p pr.2.1 pr.2.2 hpr.1 hpr.2, ih hprs]
      rfl

/-- The import wrapper masks every failure of the body with the generic message. -/
theorem importVaultData_of_core (text p : String) :
    importVaultData text p
      = match importVaultDataCore text p with
        | .ok items => .ok items
        | .error _ =>
            .error "Failed to import vault data. Check your master password." := rfl

/-- On a well-formed parsed container the import body decrypts the items. -/
theorem importVaultDataCore_container (ts p : String) (blobs : List EncryptedData)
    (text : String)
    (hparse : parseJson text = some (containerJson ts blobs)) :
    importVaultDataCore text p
      = (blobs.map blobJson).mapM fun it => decryptVaultItemJson it p := by
  unfold importVaultDataCore
  rw [hparse]
  simp only []
  rw [show jsLookup (containerJson ts blobs) "version" = some (.num 1) from rfl,
    show jsLookup (containerJson ts blobs) "items"
      = some (.arr (blobs.map blobJson)) from rfl]
  rw [if_neg (by simp [truthyOpt, truthy])]
  rfl


/-- C1: for every record (all five fields arbitrary text, including empty and
unicode strings) and every master password, decrypting the blob produced by
`encryptVaultItem` under the same password returns the record field-for-field
(as the parsed five-field JSON object). -/
theorem decryptRecord_encryptRecord_roundTrip (r : VaultItem) (p : String)
    (salt iv : List Nat)
    (hsalt : ∀ x ∈ salt, x < 256) (hiv : ∀ x ∈ iv, x < 256) :
    decryptVaultItem (encryptVaultItem r p salt iv) p = .ok (vaultItemJson r)
    ∧ jsLookup (vaultItemJson r) "title" = some (.str r.title)
    ∧ jsLookup (vaultItemJson r) "username" = some (.str r.username)
    ∧ jsLookup (vaultItemJson r) "password" = some (.str r.password)
    ∧ jsLookup (vaultItemJson r) "url" = some (.str r.url)
    ∧ jsLookup (vaultItemJson r) "notes" = some (.str r.notes) :=
  ⟨decryptVaultItem_encryptVaultItem r p salt iv hsalt hiv, rfl, rfl, rfl, rfl, rfl⟩

/-- Witness for C1 at a concrete record with unicode content, an empty field
and concrete salt and iv bytes. -/
theorem decryptRecord_encryptRecord_roundTrip_witness :
    decryptVaultItem
        (encryptVaultItem ⟨"Bánk ✓", "alice", "p@ss\nword", "", "νote"⟩
          "correct horse" [1, 255] [0, 2]) "correct horse"
      = .ok (vaultItemJson ⟨"Bánk ✓", "alice", "p@ss\nword", "", "νote"⟩) :=
  (decryptRecord_encryptRecord_roundTrip ⟨"Bánk ✓", "alice", "p@ss\nword", "", "νote"⟩
    "correct horse" [1, 255] [0, 2] (by decide) (by decide)).1

/-- Decryption of a well-formed blob returns exactly the parse result of the
plaintext, validating nothing about its fields. -/
theorem decryptVaultItem_parse (plaintext p : String) (salt iv : List Nat)
    (hsalt : ∀ x ∈ salt, x < 256) (hiv : ∀ x ∈ iv, x < 256) :
    decryptVaultItem
        ⟨arrayBufferToBase64 (aesGcmEncrypt (deriveKey p salt) iv plaintext),
          arrayBufferToBase64 salt, arrayBufferToBase64 iv⟩ p
      = match parseJson plaintext with
        | some j => .ok j
        | none => .error "SyntaxError" := by
  have hct : ∀ x ∈ aesGcmEncrypt (deriveKey p salt) iv plaintext, x < 256 :=
    aesGcmEncrypt_lt_256 _ _ _ hsalt hiv
  unfold decryptVaultItem arrayBufferToBase64 base64ToArrayBuffer
  simp only [stringData_mk]
  rw [base64DecodeChars_encodeChars salt hsalt]
  simp only []
  rw [base64DecodeChars_encodeChars iv hiv]
  simp only []
  rw [base64DecodeChars_encodeChars _ hct]
  simp only []
  rw [aesGcmDecrypt_encrypt]
  simp only []
  cases parseJson plaintext <;> rfl

/-- C2 (amended): record deserialization inside `decryptVaultItem` performs no
field validation at all: whenever the authenticated decryption succeeds, the
call returns exactly the `JSON.parse` result of the plaintext — any valid
JSON value, with or without the five record fields — and fails only when the
plaintext is not valid JSON. -/
theorem deserialize_no_field_validation (plaintext p : String) (salt iv : List Nat)
    (hsalt : ∀ x ∈ salt, x < 256) (hiv : ∀ x ∈ iv, x < 256) :
    decryptVaultItem
        ⟨arrayBufferToBase64 (aesGcmEncrypt (deriveKey p salt) iv plaintext),
          arrayBufferToBase64 salt, arrayBufferToBase64 iv⟩ p
      = match parseJson plaintext with
        | some j => .ok j
        | none => .error "SyntaxError" :=
  decryptVaultItem_parse plaintext p salt iv hsalt hiv

/-- Witness for C2's amended claim at a concrete plaintext. -/
theorem deserialize_no_field_validation_witness :
    decryptVaultItem
        ⟨arrayBufferToBase64 (aesGcmEncrypt (deriveKey "pw" [1]) [2] "\x7b\"title\":\"x\"\x7d"),
          arrayBufferToBase64 [1], arrayBufferToBase64 [2]⟩ "pw"
      = match parseJson "\x7b\"title\":\"x\"\x7d" with
        | some j => .ok j
        | none => .error "SyntaxError" :=
  deserialize_no_field_validation "\x7b\"title\":\"x\"\x7d" "pw" [1] [2]
    (by decide) (by decide)

/-- C2 counterexample: the plaintext `{"title":"x"}` is missing four of the
five required fields, yet deserialization returns it as a value instead of
failing. -/
theorem deserialize_missing_fields_accepted :
    decryptVaultItem
        ⟨arrayBufferToBase64 (aesGcmEncrypt (deriveKey "pw" [1]) [2] "\x7b\"title\":\"x\"\x7d"),
          arrayBufferToBase64 [1], arrayBufferToBase64 [2]⟩ "pw"
      = .ok (.obj [("title", .str "x")]) := by
  rw [decryptVaultItem_parse "\x7b\"title\":\"x\"\x7d" "pw" [1] [2] (by decide) (by decide)]
  rfl

/-- C6: exporting a sequence of records encrypts each item independently with
its own salt/iv pair, wraps them with `version = 1` and the timestamp, and
the import of that container under the same password returns the original
records in the original order. -/
theorem importVault_exportVault_roundTrip (items : List VaultItem) (p ts : String)
    (rands : List (List Nat × List Nat))
    (hlen : rands.length = items.length)
    (hbytes : ∀ pr ∈ rands, (∀ x ∈ pr.1, x < 256) ∧ (∀ x ∈ pr.2, x < 256)) :
    parseJson (exportVaultData items p rands ts)
      = some (containerJson ts ((items.zip rands).map fun pr =>
          encryptVaultItem pr.1 p pr.2.1 pr.2.2))
    ∧ importVaultData (exportVaultData items p rands ts) p
      = .ok (items.map vaultItemJson) := by
  have hparse : parseJson (exportVaultData items p rands ts)
      = some (containerJson ts ((items.zip rands).map fun pr =>
          encryptVaultItem pr.1 p pr.2.1 pr.2.2)) :=
    parseJson_printContainer ts _
  refine ⟨hparse, ?h2⟩
  rw [importVaultData_of_core, importVaultDataCore_container ts p _ _ hparse]
  rw [mapM_decrypt_encrypt p (items.zip rands)
    (fun pr hpr => hbytes pr.2 (List.of_mem_zip hpr).2)]
  rw [show (items.zip rands).map (fun pr => vaultItemJson pr.1)
      = items.map vaultItemJson from by
    rw [show (fun pr : VaultItem × (List Nat × List Nat) => vaultItemJson pr.1)
        = vaultItemJson ∘ Prod.fst from rfl]
    rw [← List.map_map, List.map_fst_zip items rands (by omega)]]

/-- Witness for C6 at a concrete record list, password and random draws. -/
theorem importVault_exportVault_roundTrip_witness :
    importVaultData
        (exportVaultData [⟨"Bank", "alice", "pw", "u", ""⟩] "m" [([9], [8])] "ts") "m"
      = .ok ([⟨"Bank", "alice", "pw", "u", ""⟩].map vaultItemJson) :=
  (importVault_exportVault_roundTrip [⟨"Bank", "alice", "pw", "u", ""⟩] "m" "ts"
    [([9], [8])] (by decide) (by decide)).2


/-- One-step form of the import body after a successful parse of a non-null
value: the truthiness check, then the decryption of the items array. -/
theorem importVaultDataCore_eq (text p : String) (data : Json)
    (hparse : parseJson text = some data) (hnn : data ≠ .null) :
    importVaultDataCore text p
      = if truthyOpt (jsLookup data "version") = false
            ∨ truthyOpt (jsLookup data "items") = false then
          .error "Invalid export file format"
        else
          match jsLookup data "items" with
          | some (.arr items) => items.mapM fun it => decryptVaultItemJson it p
          | _ => .error "TypeError" := by
  unfold importVaultDataCore
  rw [hparse]
  cases data <;> first | exact absurd rfl hnn | rfl

/-- The import body on a parsed `null` container: reading `null.version`
throws a `TypeError`. -/
theorem importVaultDataCore_null (text p : String)
    (hparse : parseJson text = some .null) :
    importVaultDataCore text p = .error "TypeError" := by
  unfold importVaultDataCore
  rw [hparse]

/-- Any failure of one item makes the whole import fail with the generic
message. -/
theorem importVault_fails_of_item_error (text p : String) (data : Json)
    (items : List Json)
    (hparse : parseJson text = some data)
    (hitems : jsLookup data "items" = some (.arr items))
    (hbad : ∃ it ∈ items, ∃ e, decryptVaultItemJson it p = .error e) :
    importVaultData text p
      = .error "Failed to import vault data. Check your master password." := by
  rw [importVaultData_of_core]
  by_cases hnn : data = .null
  · subst hnn
    rw [importVaultDataCore_null text p hparse]
  · rw [importVaultDataCore_eq text p data hparse hnn]
    by_cases hcond : truthyOpt (jsLookup data "version") = false
        ∨ truthyOpt (jsLookup data "items") = false
    · rw [if_pos hcond]
    · rw [if_neg hcond, hitems]
      simp only []
      cases hmap : items.mapM (fun it => decryptVaultItemJson it p) with
      | error e2 => rfl
      | ok res =>
          exfalso
          rcases hbad with ⟨it, hit, e, he⟩
          rcases exceptMapM_ok_forall _ items res hmap it hit with ⟨b, hb⟩
          rw [he] at hb
          exact Except.noConfusion hb

/-- A successful import comes from a parsed container whose items all
decrypt, in order. -/
theorem importVault_ok_inversion (text p : String) (result : List Json)
    (hok : importVaultData text p = .ok result) :
    ∃ data items, parseJson text = some data
      ∧ jsLookup data "items" = some (.arr items)
      ∧ items.mapM (fun it => decryptVaultItemJson it p) = .ok result := by
  rw [importVaultData_of_core] at hok
  cases hcore : importVaultDataCore text p with
  | error e => rw [hcore] at hok; exact Except.noConfusion hok
  | ok res =>
      rw [hcore] at hok
      injection hok with hres
      subst hres
      cases hparse : parseJson text with
      | none => unfold importVaultDataCore at hcore; rw [hparse] at hcore
                exact Except.noConfusion hcore
      | some data =>
          by_cases hnn : data = .null
          · subst hnn
            rw [importVaultDataCore_null text p hparse] at hcore
            exact Except.noConfusion hcore
          · rw [importVaultDataCore_eq text p data hparse hnn] at hcore
            by_cases hcond : truthyOpt (jsLookup data "version") = false
                ∨ truthyOpt (jsLookup data "items") = false
            · rw [if_pos hcond] at hcore
              exact Except.noConfusion hcore
            · rw [if_neg hcond] at hcore
              cases hl : jsLookup data "items" with
              | none => rw [hl] at hcore; exact Except.noConfusion hcore
              | some j =>
                  rw [hl] at hcore
                  cases j with
                  | arr items => exact ⟨data, items, rfl, hl, hcore⟩
                  | null => exact Except.noConfusion hcore
                  | bool b => exact Except.noConfusion hcore
                  | num n => exact Except.noConfusion hcore
                  | str s => exact Except.noConfusion hcore
                  | obj ms => exact Except.noConfusion hcore

/-- C5: import is all-or-nothing: if any item of the parsed container fails
to decrypt, the whole import fails with the single masked error and no subset
is returned; and a returned sequence always comes from every item
decrypting, in order. -/
theorem importVault_all_or_nothing (text p : String) :
    (∀ data items, parseJson text = some data →
      jsLookup data "items" = some (.arr items) →
      (∃ it ∈ items, ∃ e, decryptVaultItemJson it p = .error e) →
      importVaultData text p
        = .error "Failed to import vault data. Check your master password.")
    ∧ (∀ result, importVaultData text p = .ok result →
        ∃ data items, parseJson text = some data
          ∧ jsLookup data "items" = some (.arr items)
          ∧ items.mapM (fun it => decryptVaultItemJson it p) = .ok result) :=
  ⟨fun data items hparse hitems hbad =>
      importVault_fails_of_item_error text p data items hparse hitems hbad,
    fun result hok => importVault_ok_inversion text p result hok⟩

/-- Witness for C5: a container with one well-formed blob that cannot be
decrypted (its fields are not base64) fails entirely. -/
theorem importVault_all_or_nothing_witness :
    parseJson "\x7b\"version\":1,\"items\":[\x7b\"encrypted\":\"!\",\"salt\":\"!\",\"iv\":\"!\"\x7d]\x7d"
        = some (.obj [("version", .num 1), ("items", .arr
            [.obj [("encrypted", .str "!"), ("salt", .str "!"), ("iv", .str "!")]])])
    ∧ importVaultData
        "\x7b\"version\":1,\"items\":[\x7b\"encrypted\":\"!\",\"salt\":\"!\",\"iv\":\"!\"\x7d]\x7d" "p"
        = .error "Failed to import vault data. Check your master password." :=
  ⟨by rfl,
    (importVault_all_or_nothing
      "\x7b\"version\":1,\"items\":[\x7b\"encrypted\":\"!\",\"salt\":\"!\",\"iv\":\"!\"\x7d]\x7d" "p").1
      (.obj [("version", .num 1), ("items", .arr
        [.obj [("encrypted", .str "!"), ("salt", .str "!"), ("iv", .str "!")]])])
      [.obj [("encrypted", .str "!"), ("salt", .str "!"), ("iv", .str "!")]]
      (by rfl) (by rfl)
      ⟨.obj [("encrypted", .str "!"), ("salt", .str "!"), ("iv", .str "!")],
        by simp, "InvalidCharacterError", by rfl⟩⟩


/-- The error strings `decryptVaultItem` can produce. -/
theorem decryptVaultItem_error_cases (b : EncryptedData) (p e : String)
    (he : decryptVaultItem b p = .error e) :
    e = "InvalidCharacterError" ∨ e = "OperationError" ∨ e = "SyntaxError" := by
  unfold decryptVaultItem at he
  repeat' split at he
  all_goals first
    | exact Except.noConfusion he
    | (injection he with h; subst h; simp)

/-- The error strings item decryption can produce are never the container
error. -/
theorem decryptVaultItemJson_error_cases (it : Json) (p e : String)
    (he : decryptVaultItemJson it p = .error e) :
    e ≠ "Invalid export file format" := by
  unfold decryptVaultItemJson at he
  cases it with
  | null =>
      injection he with h
      subst h
      decide
  | bool b =>
      rcases decryptVaultItem_error_cases _ _ _ he with h | h | h <;> subst h <;> decide
  | num n =>
      rcases decryptVaultItem_error_cases _ _ _ he with h | h | h <;> subst h <;> decide
  | str s =>
      rcases decryptVaultItem_error_cases _ _ _ he with h | h | h <;> subst h <;> decide
  | arr l =>
      rcases decryptVaultItem_error_cases _ _ _ he with h | h | h <;> subst h <;> decide
  | obj ms =>
      rcases decryptVaultItem_error_cases _ _ _ he with h | h | h <;> subst h <;> decide

/-- C4 counterexample: a container whose `version` field is present with
value `0` is rejected with the invalid-container error, because the source
tests `!data.version` (JS truthiness), not field absence. -/
theorem importVault_version_zero_rejected :
    parseJson "\x7b\"version\":0,\"items\":[]\x7d"
        = some (.obj [("version", .num 0), ("items", .arr [])])
    ∧ importVaultDataCore "\x7b\"version\":0,\"items\":[]\x7d" "pw"
        = .error "Invalid export file format" :=
  ⟨by rfl, by rfl⟩

/-- C4 (amended): after a successful parse of a non-null container value, the
body fails with the invalid-container error exactly when `version` or
`items` is absent or JS-falsy (`0`, `""`, `false`, `null`); when both are
truthy it proceeds to decrypt the items (failing differently when `items` is
not an array). -/
theorem importVault_invalidContainer_characterization (text p : String) (data : Json)
    (hparse : parseJson text = some data) (hnn : data ≠ .null) :
    (importVaultDataCore text p = .error "Invalid export file format"
      ↔ (truthyOpt (jsLookup data "version") = false
          ∨ truthyOpt (jsLookup data "items") = false))
    ∧ (truthyOpt (jsLookup data "version") = true →
        truthyOpt (jsLookup data "items") = true →
        importVaultDataCore text p
          = match jsLookup data "items" with
            | some (.arr items) => items.mapM fun it => decryptVaultItemJson it p
            | _ => .error "TypeError") := by
  rw [importVaultDataCore_eq text p data hparse hnn]
  constructor
  · by_cases hcond : truthyOpt (jsLookup data "version") = false
        ∨ truthyOpt (jsLookup data "items") = false
    · rw [if_pos hcond]
      exact iff_of_true rfl hcond
    · rw [if_neg hcond]
      refine iff_of_false ?hne hcond
      intro heq
      cases hl : jsLookup data "items" with
      | none =>
          rw [hl] at heq
          injection heq with h
          exact absurd h.symm (by decide)
      | some j =>
          rw [hl] at heq
          cases j with
          | arr items =>
              simp only [] at heq
              rcases exceptMapM_error_mem _ items _ heq with ⟨a, _, ha⟩
              exact decryptVaultItemJson_error_cases a p _ ha rfl
          | null => injection heq with h; exact absurd h.symm (by decide)
          | bool b => injection heq with h; exact absurd h.symm (by decide)
          | num n => injection heq with h; exact absurd h.symm (by decide)
          | str s => injection heq with h; exact absurd h.symm (by decide)
          | obj ms => injection heq with h; exact absurd h.symm (by decide)
  · intro hv hi
    rw [if_neg (by simp [hv, hi])]

/-- Witness for C4's amended claim: a container with truthy `version` and
`items` is not rejected as an invalid container. -/
theorem importVault_invalidContainer_characterization_witness :
    importVaultDataCore "\x7b\"version\":1,\"items\":[]\x7d" "pw"
      = match jsLookup (.obj [("version", .num 1), ("items", .arr [])]) "items" with
        | some (.arr items) => items.mapM fun it => decryptVaultItemJson it "pw"
        | _ => .error "TypeError" :=
  (importVault_invalidContainer_characterization "\x7b\"version\":1,\"items\":[]\x7d" "pw"
      (.obj [("version", .num 1), ("items", .arr [])]) (by rfl) (by intro h; injection h)).2
    (by rfl) (by rfl)

/-- C10: every failure of `importVaultData` — unparseable container text,
missing or falsy `version`/`items`, a `null` container, or any item failing
to decrypt — surfaces as one and the same generic error message, so the
caller cannot distinguish the causes. -/
theorem importVault_single_error_signal (text p : String) :
    ((∃ items, importVaultData text p = .ok items)
      ∨ importVaultData text p
          = .error "Failed to import vault data. Check your master password.")
    ∧ (parseJson text = none →
        importVaultData text p
          = .error "Failed to import vault data. Check your master password.")
    ∧ (∀ data, parseJson text = some data → data ≠ .null →
        truthyOpt (jsLookup data "version") = false →
        importVaultData text p
          = .error "Failed to import vault data. Check your master password.")
    ∧ (∀ data items, parseJson text = some data →
        jsLookup data "items" = some (.arr items) →
        (∃ it ∈ items, ∃ e, decryptVaultItemJson it p = .error e) →
        importVaultData text p
          = .error "Failed to import vault data. Check your master password.") := by
  refine ⟨?h1, ?h2, ?h3, ?h4⟩
  case h1 =>
      rw [importVaultData_of_core]
      cases importVaultDataCore text p with
      | ok items => exact Or.inl ⟨items, rfl⟩
      | error e => exact Or.inr rfl
  case h2 =>
      intro hnone
      rw [importVaultData_of_core]
      unfold importVaultDataCore
      rw [hnone]
  case h3 =>
      intro data hparse hnn hfalsy
      rw [importVaultData_of_core, importVaultDataCore_eq text p data hparse hnn,
        if_pos (Or.inl hfalsy)]
  case h4 =>
      intro data items hparse hitems hbad
      exact importVault_fails_of_item_error text p data items hparse hitems hbad

/-- Witness for C10: unparseable container text yields the generic message. -/
theorem importVault_single_error_signal_witness :
    importVaultData "not json" "pw"
      = .error "Failed to import vault data. Check your master password." :=
  (importVault_single_error_signal "not json" "pw").2.1 (by rfl)


/-- Exact count of values below `N` hitting a given residue class modulo `n`:
`N / n`, plus one for the residues below `N % n`. -/
theorem card_range_filter_mod (n : Nat) (hn : 0 < n) :
    ∀ (N i : Nat), i < n →
      ((Finset.range N).filter (fun u => u % n = i)).card
        = N / n + if i < N % n then 1 else 0 := by
  intro N
  induction N with
  | zero =>
      intro i hi
      simp
  | succ N ihN =>
      intro i hi
      have hq := Nat.div_add_mod N n
      have hr : N % n < n := Nat.mod_lt N hn
      have e12 : ((N + 1) / n = if N % n + 1 = n then N / n + 1 else N / n)
          ∧ ((N + 1) % n = if N % n + 1 = n then 0 else N % n + 1) := by
        by_cases hcase : N % n + 1 = n
        · rw [if_pos hcase, if_pos hcase]
          have hmul : n * (N / n + 1) = n * (N / n) + n := by ring
          have hN1 : N + 1 = n * (N / n + 1) := by omega
          constructor
          · rw [hN1, Nat.mul_div_cancel_left _ hn]
          · rw [hN1, Nat.mul_mod_right]
        · rw [if_neg hcase, if_neg hcase]
          have hN1 : N + 1 = (N % n + 1) + n * (N / n) := by omega
          constructor
          · rw [hN1, Nat.add_mul_div_left _ _ hn,
              Nat.div_eq_of_lt (by omega), Nat.zero_add]
          · rw [hN1, Nat.add_mul_mod_self_left, Nat.mod_eq_of_lt (by omega)]
      rw [Finset.range_succ, Finset.filter_insert]
      by_cases hc : N % n = i
      · rw [if_pos hc, Finset.card_insert_of_not_mem (by simp), ihN i hi]
        rcases e12 with ⟨e1, e2⟩
        by_cases hcase : N % n + 1 = n
        · rw [e1, e2, if_pos hcase, if_pos hcase]
          split_ifs <;> omega
        · rw [e1, e2, if_neg hcase, if_neg hcase]
          split_ifs <;> omega
      · rw [if_neg hc, ihN i hi]
        rcases e12 with ⟨e1, e2⟩
        by_cases hcase : N % n + 1 = n
        · rw [e1, e2, if_pos hcase, if_pos hcase]
          split_ifs <;> omega
        · rw [e1, e2, if_neg hcase, if_neg hcase]
          split_ifs <;> omega

/-- The selection made by `generateSecurePassword` for a single random word. -/
theorem generateSecurePassword_single (options : PasswordOptions) (u : Nat) :
    generateSecurePassword options [u]
      = String.mk [(passwordCharset options).getD
          (u % (passwordCharset options).length) 'A'] := rfl

/-- C3 counterexample: with the default policy (52-letter charset) the
selection `charset[u % 52]` over the `2 ^ 32` possible random words hits
`'a'` (index 0) one more time than `'Z'` (index 51), because 52 does not
divide `2 ^ 32` — the classic modulo bias. -/
theorem generate_uniform_selection_false :
    ((Finset.range (2 ^ 32)).filter
        (fun u => generateSecurePassword ⟨1, false, false, false⟩ [u] = "a")).card
      ≠ ((Finset.range (2 ^ 32)).filter
        (fun u => generateSecurePassword ⟨1, false, false, false⟩ [u] = "Z")).card := by
  have hlen : (passwordCharset ⟨1, false, false, false⟩).length = 52 := by decide
  have hiffa : ∀ u : Nat,
      (generateSecurePassword ⟨1, false, false, false⟩ [u] = "a") ↔ (u % 52 = 0) := by
    intro u
    rw [generateSecurePassword_single, hlen]
    have hm : u % 52 < 52 := Nat.mod_lt u (by omega)
    revert hm
    generalize u % 52 = i
    intro hm
    revert hm
    revert i
    decide
  have hiffZ : ∀ u : Nat,
      (generateSecurePassword ⟨1, false, false, false⟩ [u] = "Z") ↔ (u % 52 = 51) := by
    intro u
    rw [generateSecurePassword_single, hlen]
    have hm : u % 52 < 52 := Nat.mod_lt u (by omega)
    revert hm
    generalize u % 52 = i
    intro hm
    revert hm
    revert i
    decide
  rw [show (Finset.range (2 ^ 32)).filter
        (fun u => generateSecurePassword ⟨1, false, false, false⟩ [u] = "a")
      = (Finset.range (2 ^ 32)).filter (fun u => u % 52 = 0) from
    Finset.filter_congr (fun u _ => by rw [hiffa u])]
  rw [show (Finset.range (2 ^ 32)).filter
        (fun u => generateSecurePassword ⟨1, false, false, false⟩ [u] = "Z")
      = (Finset.range (2 ^ 32)).filter (fun u => u % 52 = 51) from
    Finset.filter_congr (fun u _ => by rw [hiffZ u])]
  rw [card_range_filter_mod 52 (by omega) (2 ^ 32) 0 (by omega),
    card_range_filter_mod 52 (by omega) (2 ^ 32) 51 (by omega)]
  have hdiv : 2 ^ 32 / 52 = 82595524 := by norm_num
  have hmod : 2 ^ 32 % 52 = 48 := by norm_num
  rw [hdiv, hmod]
  decide

/-- C3 (amended): each output character is selected as
`charset[u % charset.length]` from a uniform 32-bit word; that selection is
biased — over the `2 ^ 32` words, an index below `2 ^ 32 % charset.length` is
hit `2 ^ 32 / charset.length + 1` times and every other index
`2 ^ 32 / charset.length` times, so two charset positions get equal counts
only when the charset length divides `2 ^ 32`. -/
theorem generate_selection_modulo_bias (options : PasswordOptions) (i : Nat)
    (hi : i < (passwordCharset options).length) :
    (∀ u : Nat, generateSecurePassword options [u]
        = String.mk [(passwordCharset options).getD
            (u % (passwordCharset options).length) 'A'])
    ∧ ((Finset.range (2 ^ 32)).filter
          (fun u => u % (passwordCharset options).length = i)).card
        = 2 ^ 32 / (passwordCharset options).length
          + if i < 2 ^ 32 % (passwordCharset options).length then 1 else 0 :=
  ⟨fun u => generateSecurePassword_single options u,
    card_range_filter_mod _ (by omega) _ _ hi⟩

/-- Witness for C3's amended claim at the default policy and index 0. -/
theorem generate_selection_modulo_bias_witness :
    ((Finset.range (2 ^ 32)).filter
        (fun u => u % (passwordCharset ⟨1, false, false, false⟩).length = 0)).card
      = 2 ^ 32 / (passwordCharset ⟨1, false, false, false⟩).length
        + if 0 < 2 ^ 32 % (passwordCharset ⟨1, false, false, false⟩).length
          then 1 else 0 :=
  (generate_selection_modulo_bias ⟨1, false, false, false⟩ 0 (by decide)).2


/-- The charset does not depend on the requested length. -/
theorem passwordCharset_irrel (len : Nat) (n sy a : Bool) :
    passwordCharset ⟨len, n, sy, a⟩ = passwordCharset ⟨0, n, sy, a⟩ := rfl

/-- The generator charset always contains letters and is never empty. -/
theorem passwordCharset_ne_nil (options : PasswordOptions) :
    passwordCharset options ≠ [] := by
  rcases options with ⟨len, n, sy, a⟩
  rw [passwordCharset_irrel]
  cases n <;> cases sy <;> cases a <;> decide

/-- C7: every output character of `generateSecurePassword` lies in the final
charset (letters always; digits and symbols per the options; ambiguous
characters removed afterwards when requested); the charset is never empty, so
generation is total and the output has exactly `options.length` characters
(one per random word); in particular, with numbers and symbols off and
ambiguity exclusion on, the output contains only letters and never
`i l L o O`. -/
theorem generate_charset_honoring (options : PasswordOptions) (randomValues : List Nat)
    (hlen : randomValues.length = options.length) :
    (generateSecurePassword options randomValues).length = options.length
    ∧ passwordCharset options ≠ []
    ∧ (∀ c ∈ (generateSecurePassword options randomValues).data,
        c ∈ passwordCharset options)
    ∧ (options.includeNumbers = false → options.includeSymbols = false →
        options.excludeAmbiguous = true →
        ∀ c ∈ (generateSecurePassword options randomValues).data,
          c.isAlpha = true ∧ ¬c ∈ ambiguousChars) := by
  have hne := passwordCharset_ne_nil options
  have hpos : 0 < (passwordCharset options).length := List.length_pos.mpr hne
  have hmem : ∀ c ∈ (generateSecurePassword options randomValues).data,
      c ∈ passwordCharset options := by
    intro c hc
    unfold generateSecurePassword at hc
    rw [stringData_mk] at hc
    rcases List.mem_map.mp hc with ⟨u, _, hu⟩
    have hidx : u % (passwordCharset options).length
        < (passwordCharset options).length := Nat.mod_lt u hpos
    rw [List.getD_eq_getElem _ _ hidx] at hu
    exact hu ▸ List.getElem_mem hidx
  refine ⟨?hl, hne, hmem, ?hspec⟩
  case hl =>
      show (String.mk _).length = _
      simp [String.length, hlen]
  case hspec =>
      intro hn hs ha c hc
      have hcc := hmem c hc
      rcases options with ⟨len, n, sy, amb⟩
      simp only at hn hs ha
      subst hn hs ha
      rw [passwordCharset_irrel] at hcc
      have hall : ∀ x ∈ passwordCharset ⟨0, false, false, true⟩,
          x.isAlpha = true ∧ ¬x ∈ ambiguousChars := by decide
      exact hall c hcc

/-- Witness for C7 at a concrete policy and random draw. -/
theorem generate_charset_honoring_witness :
    (generateSecurePassword ⟨2, false, false, true⟩ [0, 4294967295]).length = 2
    ∧ passwordCharset ⟨2, false, false, true⟩ ≠ []
    ∧ (∀ c ∈ (generateSecurePassword ⟨2, false, false, true⟩ [0, 4294967295]).data,
        c ∈ passwordCharset ⟨2, false, false, true⟩) :=
  ⟨(generate_charset_honoring ⟨2, false, false, true⟩ [0, 4294967295] (by decide)).1,
    (generate_charset_honoring ⟨2, false, false, true⟩ [0, 4294967295] (by decide)).2.1,
    (generate_charset_honoring ⟨2, false, false, true⟩ [0, 4294967295] (by decide)).2.2.1⟩

/-- C8: the strength-tier boundaries of `estimateTimeToCrack` are half-open
with strict less-than selecting the lower tier: a computed years-to-crack
exactly at a boundary falls in the next tier up — exactly 1 year is
"Moderate", not "Weak", and likewise at 0.001, 1000 and 1000000 years; in
general any value in `[1, 1000)` is "Moderate". -/
theorem strength_tier_boundaries :
    estimateTimeToCrackStrength (1 / 1000) = "Weak"
    ∧ estimateTimeToCrackStrength 1 = "Moderate"
    ∧ estimateTimeToCrackStrength 1000 = "Strong"
    ∧ estimateTimeToCrackStrength 1000000 = "Very Strong"
    ∧ (∀ y : ℚ, 1 ≤ y → y < 1000 → estimateTimeToCrackStrength y = "Moderate") := by
  refine ⟨?b1, ?b2, ?b3, ?b4, ?b5⟩
  case b1 => norm_num [estimateTimeToCrackStrength]
  case b2 => norm_num [estimateTimeToCrackStrength]
  case b3 => norm_num [estimateTimeToCrackStrength]
  case b4 => norm_num [estimateTimeToCrackStrength]
  case b5 =>
      intro y h1 h2
      unfold estimateTimeToCrackStrength
      rw [if_neg (by linarith), if_neg (by linarith), if_pos h2]

/-- Witness for C8's general Moderate range at the boundary value 1. -/
theorem strength_tier_boundaries_witness :
    estimateTimeToCrackStrength 1 = "Moderate" :=
  strength_tier_boundaries.2.2.2.2 1 (by norm_num) (by norm_num)

/-- C9: the entropy estimate is `length * log2 A` with `A` the sum of the
nominal sizes of exactly the character classes present, and at equal length a
larger detected alphabet strictly increases entropy — concretely, 12
lowercase letters score strictly below 12 characters covering all four
classes. -/
theorem entropy_formula_monotonicity :
    (∀ password : String, calculatePasswordEntropy password
        = password.length * Real.logb 2 (passwordCharsetSize password))
    ∧ calculatePasswordEntropy "aaaaaaaaaaaa" < calculatePasswordEntropy "aA1!aA1!aA1!" := by
  have hform : ∀ password : String, calculatePasswordEntropy password
      = password.length * Real.logb 2 (passwordCharsetSize password) := by
    intro password
    unfold calculatePasswordEntropy
    rw [Real.logb_pow]
  refine ⟨hform, ?hlt⟩
  have h1 : passwordCharsetSize "aaaaaaaaaaaa" = 26 := by decide
  have h2 : passwordCharsetSize "aA1!aA1!aA1!" = 94 := by decide
  have l1 : ("aaaaaaaaaaaa" : String).length = 12 := by decide
  have l2 : ("aA1!aA1!aA1!" : String).length = 12 := by decide
  rw [hform, hform, h1, h2, l1, l2]
  have hlog : Real.logb 2 (26 : ℕ) < Real.logb 2 (94 : ℕ) := by
    apply Real.logb_lt_logb (by norm_num)
    · norm_num
    · norm_num
  have h12 : (0 : ℝ) < (12 : ℕ) := by norm_num
  exact mul_lt_mul_of_pos_left hlog h12

end SMVault
